import Mathlib

/-!
Verification development for the fitting orchestration and results-extraction
subsystem of `keypoint_moseq` (file `keypoint_moseq/fitting.py`).

The source functions `fit_model`, `apply_model`, `extract_results`,
`update_hypparams`, `_set_parallel_flag` and `_wrapped_resample` are embedded
shallowly below.  External collaborators that live outside this repository
(`jax_moseq.models.keypoint_slds.resample_model` / `init_model`,
`jax_moseq.utils.check_for_nans` / `unbatch`) and repository I/O helpers that
are not part of the analysed sources (`keypoint_moseq.io.save_hdf5`) are
modelled from the specification's interface descriptions; each such
definition carries a doc comment starting with `Modelled from the spec:`.
-/

namespace KpmsFitting

/-- A numeric value as stored in a model array: either a finite number
(abstracted to an integer; the magnitude is irrelevant to the control flow
verified here) or a non-finite value (`nan` / `inf`), which is what the
divergence detector looks for. -/
inductive Num where
  | fin (n : Int)
  | nan
  | inf
deriving DecidableEq, Repr

/-- Returns `true` for finite numbers, `false` for `nan` / `inf`. -/
def Num.isFinite : Num → Bool
  | .fin _ => true
  | .nan => false
  | .inf => false

/-- A batched array: one row per recording segment, each row a list of
per-timestep entries (numpy array of shape `(rows, time, ...)`). -/
abbrev Batched (α : Type) := List (List α)

/-- Time length of a batched array (`arr.shape[1]` in numpy: the common
row length; in numpy all rows have equal length, here we read the first). -/
def timeLen {α : Type} : Batched α → Nat
  | [] => 0
  | row :: _ => row.length

/-- The `states` group of a model dictionary: discrete label sequence `z`,
continuous latent trajectory `x`, centroid `v` and heading `h`, each batched
by recording row (`model['states']` in the source). -/
structure States where
  z : Batched Int
  x : Batched (List Num)
  v : Batched (List Num)
  h : Batched Num
deriving DecidableEq, Repr

/-- Python scalar types occurring as scalar hyperparameter values in this
program (`int` and `float`; for these two types Python's
`isinstance(v, type(old))` coincides with type equality). -/
inductive PyType where
  | int
  | float
deriving DecidableEq, Repr

/-- A Python scalar value: an integer, or a float (represented exactly as a
rational; floating-point rounding plays no role in the update logic). -/
inductive Scalar where
  | i (n : Int)
  | f (q : Rat)
deriving DecidableEq, Repr

/-- The Python type of a scalar value. -/
def Scalar.ty : Scalar → PyType
  | .i _ => .int
  | .f _ => .float

/-- The source's `type(old_value)(v)` conversion: cast a scalar to the given
Python type.  `int(float)` truncates toward zero, `float(int)` is exact. -/
def Scalar.cast (t : PyType) (v : Scalar) : Scalar :=
  match t, v with
  | .int, .i n => .i n
  | .int, .f q => .i (q.num.tdiv (q.den : Int))
  | .float, .i n => .f (n : Rat)
  | .float, .f q => .f q

/-- A hyperparameter value: a scalar (where `np.isscalar` is true) or an
array (non-scalar, not updatable by `update_hypparams`). -/
inductive HypValue where
  | scalar (s : Scalar)
  | array (xs : List Num)
deriving DecidableEq, Repr

/-- One named hyperparameter group: an ordered association list, mirroring a
Python dict (keys unique, insertion-ordered). -/
abbrev HypGroup := List (String × HypValue)

/-- The nested `hypparams` container: ordered named groups. -/
abbrev Hypparams := List (String × HypGroup)

/-- Parameter arrays of the model (`model['params']`). -/
abbrev Params := List (String × List Num)

/-- The input data mapping (batched padded arrays; immutable for a run). -/
abbrev Data := List (String × List Num)

/-- A model dictionary: `states`, `params`, `hypparams` (optional, so that a
dictionary lacking the `'hypparams'` key is representable), noise prior and
seed folded into `seed`. -/
structure MState where
  states : States
  params : Params
  hypparams : Option Hypparams
  seed : Nat
deriving DecidableEq, Repr

/-- First-match association-list lookup (Python dict read `d[k]`). -/
def lookupStr {α : Type} : List (String × α) → String → Option α
  | [], _ => none
  | p :: rest, k => if p.1 = k then some p.2 else lookupStr rest k

/-- Python dict write `d[k] = v` for a key already present: replace the
entry with key `k`, leaving every other entry unchanged. -/
def assocSet : HypGroup → String → HypValue → HypGroup
  | [], _, _ => []
  | p :: rest, k, v => if p.1 = k then (k, v) :: rest else p :: assocSet rest k v

/-- Advisory (warning / print) messages emitted by the functions under
verification. `notScalar` is the `print` for a non-scalar hyperparameter,
`typeCast` the `warnings.warn` for a type-coercion cast, `notFound` the
final `warnings.warn` listing keys that matched no group. -/
inductive Advisory where
  | notScalar (k : String)
  | typeCast (k : String) (vty oty : PyType)
  | notFound (ks : List String)
deriving DecidableEq, Repr

/-- Failure modes of `update_hypparams`: the `assert 'hypparams' in
model_dict` failing, or Python's `list.remove` raising `ValueError` because
the element is absent. -/
inductive UpdateError where
  | missingHypparams
  | removeMissing
deriving DecidableEq, Repr

/-- Python `list.remove`: drop the first occurrence of `k`, or fail with
`ValueError` if `k` is not present. -/
def listRemove : List String → String → Except UpdateError (List String)
  | [], _ => .error .removeMissing
  | x :: rest, k =>
    if x = k then .ok rest
    else (listRemove rest k).map (fun r => x :: r)

/-- The inner loop of `update_hypparams` for one hyperparameter group
(`for k,v in kwargs.items(): ...` at source lines 375-387): for each
requested key present in the group, print an advisory if the current value
is not scalar, otherwise warn on a type mismatch, overwrite with the value
cast to the current type, and remove the key from the not-updated list
(which raises if the key was already removed by an earlier group). -/
def updateGroup : HypGroup → List (String × Scalar) → List String →
    List Advisory → Except UpdateError (HypGroup × List String × List Advisory)
  | g, [], nu, adv => .ok (g, nu, adv)
  | g, (k, v) :: rest, nu, adv =>
    match lookupStr g k with
    | none => updateGroup g rest nu adv
    | some (.array _) => updateGroup g rest nu (adv ++ [.notScalar k])
    | some (.scalar s) =>
      let adv' := if v.ty = s.ty then adv else adv ++ [.typeCast k v.ty s.ty]
      let g' := assocSet g k (.scalar (Scalar.cast s.ty v))
      match listRemove nu k with
      | .error e => .error e
      | .ok nu' => updateGroup g' rest nu' adv'

/-- The outer loop of `update_hypparams`
(`for hypparms_group in model_dict['hypparams']:` at source line 374),
threading the not-updated list and advisories through every group. -/
def updateGroups : Hypparams → List (String × Scalar) → List String →
    List Advisory → Except UpdateError (Hypparams × List String × List Advisory)
  | [], _, nu, adv => .ok ([], nu, adv)
  | (gn, g) :: rest, kwargs, nu, adv =>
    match updateGroup g kwargs nu adv with
    | .error e => .error e
    | .ok (g', nu', adv') =>
      match updateGroups rest kwargs nu' adv' with
      | .error e => .error e
      | .ok (rest', nu'', adv'') => .ok ((gn, g') :: rest', nu'', adv'')

/-- The source function `update_hypparams` (lines 345-392): assert
the `hypparams` container exists, scan every group updating scalar matches,
and finally warn once listing the keys that matched nothing.  The result
pairs the updated model with the advisories emitted, in order. -/
def update_hypparams (md : MState) (kwargs : List (String × Scalar)) :
    Except UpdateError (MState × List Advisory) :=
  match md.hypparams with
  | none => .error .missingHypparams
  | some groups =>
    match updateGroups groups kwargs (kwargs.map (fun p => p.1)) [] with
    | .error e => .error e
    | .ok (groups', nu, adv) =>
      .ok ({ md with hypparams := some groups' },
           adv ++ (if nu.isEmpty then [] else [.notFound nu]))

/-- The requested `parallel_message_passing` flag: the string `'force'`,
`None`, or an explicit boolean. -/
inductive ParallelFlag where
  | force
  | unset
  | flag (b : Bool)
deriving DecidableEq, Repr

/-- The source function `_set_parallel_flag` (lines 41-51) as a
pure function of the requested flag and whether `jax.default_backend()` is
`'cpu'`.  Returns `(resolved flag, advisory emitted)`. -/
def set_parallel_flag (p : ParallelFlag) (backendIsCpu : Bool) : Bool × Bool :=
  match p with
  | .force => (true, false)
  | .unset => (!backendIsCpu, false)
  | .flag b => if b && backendIsCpu then (true, true) else (b, false)

/-- Recording metadata: `(keys, bounds)` — recording identifiers per batch
row and the `(start, end)` valid frame range of each row. -/
structure Metadata where
  keys : List String
  bounds : List (Nat × Nat)
deriving DecidableEq, Repr

/-- Row slice `row[s:e]` with numpy clipping semantics. -/
def sliceRow {α : Type} (row : List α) (s e : Nat) : List α :=
  (row.drop s).take (e - s)

/-- Modelled from the spec: `jax_moseq.utils.unbatch` (spec section 4.4,
Batch Re-assembler, an external-facing utility of the `jax_moseq`
dependency).  For each recording row `r` with offset `(start, end)` it
extracts `batched_array[r, start:end, ...]`; the output mapping has one
entry per key, of time length `end - start`. -/
def unbatch {α : Type} (arr : Batched α) (keys : List String)
    (bounds : List (Nat × Nat)) : List (String × List α) :=
  (keys.zip (bounds.zip arr)).map
    (fun p => (p.1, sliceRow p.2.2 p.2.1.1 p.2.1.2))

/-- Models `np.pad(xs, (n, 0), mode='edge')`: prepend `n` copies of the first
element (undefined on an empty array in numpy; returns `[]` here, a case
never reached in the properties below). -/
def padEdgeLeft {α : Type} (n : Nat) (xs : List α) : List α :=
  match xs with
  | [] => []
  | hd :: _ => List.replicate n hd ++ xs

/-- One per-recording results record (`syllable`, `latent_state`,
`centroid`, `heading`). -/
structure ResultRecord where
  syllable : List Int
  latent_state : List (List Num)
  centroid : List (List Num)
  heading : List Num
deriving DecidableEq, Repr

/-- The results mapping from recording identifier to record. -/
abbrev Results := List (String × ResultRecord)

/-- The source function `extract_results` (lines 180-256), the pure
results computation (the optional `save_hdf5` persistence returns the same
dictionary unchanged and is out of the returned value's scope):
`nlags = x.shape[1] - z.shape[1]`; trim `z` over bounds shifted by
`(0, nlags)`, drop the first `nlags` entries and left-pad `nlags` copies of
the first remaining value; trim `x`, `v`, `h` over the unshifted bounds;
assemble per recording key. -/
def extract_results (model : MState) (md : Metadata) : Results :=
  let st := model.states
  let nlags := timeLen st.x - timeLen st.z
  let shifted := md.bounds.map (fun p => (p.1, p.2 + nlags))
  let syl0 := unbatch st.z md.keys shifted
  let syl := syl0.map (fun p => (p.1, padEdgeLeft nlags (p.2.drop nlags)))
  let lat := unbatch st.x md.keys md.bounds
  let cen := unbatch st.v md.keys md.bounds
  let hea := unbatch st.h md.keys md.bounds
  syl.map (fun p =>
    (p.1,
      { syllable := p.2
        latent_state := (lookupStr lat p.1).getD []
        centroid := (lookupStr cen p.1).getD []
        heading := (lookupStr hea p.1).getD [] }))

/-- Holds iff some entry of the list is non-finite. -/
def anyNonFinite (xs : List Num) : Bool :=
  xs.any (fun n => !n.isFinite)

/-- Holds iff some entry of some row is non-finite. -/
def anyNonFiniteB (b : Batched Num) : Bool :=
  b.any anyNonFinite

/-- Holds iff some entry of some nested row is non-finite. -/
def anyNonFiniteBL (b : Batched (List Num)) : Bool :=
  b.any (fun row => row.any anyNonFinite)

/-- Holds iff a hyperparameter array value contains a non-finite entry. -/
def hypValueNonFinite : HypValue → Bool
  | .scalar _ => false
  | .array xs => anyNonFinite xs

/-- Modelled from the spec: `jax_moseq.utils.check_for_nans` (spec
section 2, Divergence Detector, external `jax_moseq` dependency): inspects
the full model-state structure and reports whether any leaf array contains a
non-finite value. -/
def checkForNans (m : MState) : Bool :=
  anyNonFiniteBL m.states.x || anyNonFiniteBL m.states.v ||
  anyNonFiniteB m.states.h ||
  m.params.any (fun p => anyNonFinite p.2) ||
  (match m.hypparams with
   | none => false
   | some groups => groups.any (fun g => g.2.any (fun p => hypValueNonFinite p.2)))

/-- Options forwarded to the external resampling step that the claims
observe: `ar_only` and `states_only`. -/
structure ROpts where
  arOnly : Bool
  statesOnly : Bool
deriving DecidableEq, Repr

/-- Outcome of one call to the external `resample_model`: a new model state,
or a `KeyboardInterrupt` raised during the call. -/
inductive StepResult where
  | done (m : MState)
  | interrupted
deriving DecidableEq, Repr

/-- The external resampling step (spec section 6), supplied as an oracle:
given the options, the iteration index and the current state it either
produces the next state or is interrupted by the user. -/
abbrev Oracle := ROpts → Nat → MState → StepResult

/-- Why the fitting loop stopped early: user cancellation or numerical
divergence. -/
inductive StopKind where
  | cancelled
  | diverged
deriving DecidableEq, Repr

/-- The source function `_wrapped_resample` (lines 19-38): run the
external resampling step, converting a `KeyboardInterrupt` into
`StopResampling` (here `.error .cancelled`), then run the divergence
detector on the new state and raise `StopResampling` (here
`.error .diverged`) when any leaf is non-finite; otherwise return the new
state. -/
def wrapped_resample (step : Oracle) (opts : ROpts) (i : Nat) (m : MState) :
    Except StopKind MState :=
  match step opts i m with
  | .interrupted => .error .cancelled
  | .done m' => if checkForNans m' then .error .diverged else .ok m'

/-- Modelled from the spec: the checkpoint artifact written by
`keypoint_moseq.io.save_hdf5` (not among the analysed sources; spec
sections 3 and 6): a single container holding the `model_snapshots` mapping
keyed by iteration number, plus `metadata` and `data` written once. -/
structure Checkpoint where
  snapshots : List (Nat × MState)
  metadata : Metadata
  data : Data
deriving DecidableEq, Repr

/-- Modelled from the spec: an incremental artifact write to sub-path
`model_snapshots/<i>` adds or overwrites that key without destroying
sibling data. -/
def setKey : List (Nat × MState) → Nat → MState → List (Nat × MState)
  | [], i, m => [(i, m)]
  | p :: rest, i, m => if p.1 = i then (i, m) :: rest else p :: setKey rest i m

/-- Write a model snapshot under iteration key `i`. -/
def saveSnapshot (c : Checkpoint) (i : Nat) (m : MState) : Checkpoint :=
  { c with snapshots := setKey c.snapshots i m }

/-- Whether the checkpoint store holds a snapshot under key `i`. -/
def hasKey (c : Checkpoint) (i : Nat) : Bool :=
  c.snapshots.any (fun p => p.1 == i)

/-- The snapshot-save condition of the loop body (source lines 170-171):
`save_every_n_iters > 0 and iteration > start_iter and
(iteration % save_every_n_iters == 0 or iteration == num_iters)`. -/
def saveGuard (se si ni i : Nat) : Bool :=
  decide (0 < se) && decide (si < i) &&
    (decide (i % se = 0) || decide (i = ni))

/-- Observable events of a run: a call into the external resampling step,
creation of the checkpoint artifact, a snapshot save, a progress plot. -/
inductive Event where
  | resample (opts : ROpts) (i : Nat)
  | ckptInit (i : Nat)
  | ckptSave (i : Nat)
  | plot (i : Nat)
deriving DecidableEq, Repr

/-- The iteration loop shared by `fit_model` (source lines 162-175) and
`apply_model` (source lines 330-338): for each iteration run
`_wrapped_resample`; on `StopResampling` break, returning the last adopted
state; otherwise adopt the new state and, when the save condition holds,
persist it under the iteration key (and render a progress plot when
enabled).  Returns the final state, the checkpoint store and the event
trace. -/
def fitLoop (step : Oracle) (opts : ROpts) (se si ni : Nat) (gp : Bool) :
    List Nat → MState → Option Checkpoint →
    MState × Option Checkpoint × List Event
  | [], m, store => (m, store, [])
  | i :: rest, m, store =>
    match wrapped_resample step opts i m with
    | .error _ => (m, store, [Event.resample opts i])
    | .ok m' =>
      let doSave := saveGuard se si ni i
      let store' := if doSave then store.map (fun c => saveSnapshot c i m') else store
      let evs := if doSave then
          (if gp then [Event.ckptSave i, Event.plot i] else [Event.ckptSave i])
        else []
      let r := fitLoop step opts se si ni gp rest m' store'
      (r.1, r.2.1, Event.resample opts i :: (evs ++ r.2.2))

/-- The checkpoint-store effect of a fully clean run over the given
iterations along trajectory `traj` (state adopted at iteration `i` is
`traj (i+1)`): fold the guarded snapshot saves. -/
def cleanSaves (se si ni : Nat) (traj : Nat → MState) :
    List Nat → Option Checkpoint → Option Checkpoint
  | [], store => store
  | i :: rest, store =>
    cleanSaves se si ni traj rest
      (if saveGuard se si ni i then
         store.map (fun c => saveSnapshot c i (traj (i + 1)))
       else store)

/-- The result of `fit_model`: the final model state, the run name, the
checkpoint artifact (`none` when no artifact exists) and the event trace. -/
structure FitOutcome where
  model : MState
  name : String
  store : Option Checkpoint
  trace : List Event
deriving Repr

/-- The source function `fit_model` (lines 54-176): downgrade
progress plots when checkpointing is off; when `save_every_n_iters > 0` and
no checkpoint artifact exists, create one holding the initial state under
key `start_iter` together with `metadata` and `data`; then run the iteration
loop over `start_iter, ..., num_iters` (inclusive, `tqdm.trange(start_iter,
num_iters+1)`) and return the final state and the run name.  The run name
and the existing-artifact state are passed explicitly (the source derives
the name from a timestamp when absent and probes the filesystem). -/
def fit_model (step : Oracle) (model : MState) (data : Data) (md : Metadata)
    (name : String) (ni si se : Nat) (gp ar : Bool)
    (existing : Option Checkpoint) : FitOutcome :=
  let gp' := gp && decide (se ≠ 0)
  let created := decide (0 < se) && existing.isNone
  let store : Option Checkpoint :=
    if 0 < se then
      some (existing.getD { snapshots := [(si, model)], metadata := md, data := data })
    else existing
  let opts : ROpts := { arOnly := ar, statesOnly := false }
  let iters := List.range' si (ni + 1 - si)
  let r := fitLoop step opts se si ni gp' iters model store
  { model := r.1, name := name, store := r.2.1,
    trace := (if created then [Event.ckptInit si] else []) ++ r.2.2 }

/-- The result of `apply_model`: the extracted results, the final model
state and the event trace. -/
structure ApplyOutcome where
  results : Results
  finalModel : MState
  trace : List Event
deriving Repr

/-- The source function `apply_model` (lines 259-341):
initialize a fresh model state from the new data and the supplied
`params` / `hypparams` via the external initializer (`init_model`, spec
section 6, passed as the oracle `initM`), run `num_iters` iterations
(`tqdm.trange(num_iters)`, i.e. `0, ..., num_iters - 1`) with
`states_only=True` and no checkpointing, and return `extract_results`
applied to the final adopted state. -/
def apply_model (initM : Data → Params → Option Hypparams → MState)
    (step : Oracle) (model : MState) (data : Data) (md : Metadata)
    (ni : Nat) (ar : Bool) : ApplyOutcome :=
  let m0 := initM data model.params model.hypparams
  let opts : ROpts := { arOnly := ar, statesOnly := true }
  let r := fitLoop step opts 0 0 ni false (List.range' 0 ni) m0 none
  { results := extract_results r.1 md, finalModel := r.1, trace := r.2.2 }

/-! ### Concrete fixtures used by witnesses and counterexamples -/

/-- Empty states group (finite everywhere). -/
def emptySt : States := { z := [], x := [], v := [], h := [] }

/-- A clean model state distinguished by its seed. -/
def mk (n : Nat) : MState :=
  { states := emptySt, params := [], hypparams := some [], seed := n }

/-- A model state with a non-finite heading leaf: the divergence detector
fires on it. -/
def mNan : MState :=
  { states := { z := [], x := [], v := [], h := [[Num.nan]] },
    params := [], hypparams := some [], seed := 0 }

/-- Empty metadata. -/
def cMd : Metadata := { keys := [], bounds := [] }

/-- An oracle that always returns the given state. -/
def stepConst (m : MState) : Oracle := fun _ _ _ => StepResult.done m

/-- A constant trajectory. -/
def trajConst (m : MState) : Nat → MState := fun _ => m

/-- An oracle that is clean at iteration 0 and produces a non-finite state
from iteration 1 on. -/
def stepDivAt1 : Oracle :=
  fun _ i _ => if i = 0 then StepResult.done (mk 1) else StepResult.done mNan

/-- Trajectory of `stepDivAt1`'s clean prefix. -/
def trajDiv : Nat → MState := fun n => if n = 0 then mk 0 else mk 1

/-- An oracle that always produces a non-finite state (divergence at the
very first iteration). -/
def stepNan : Oracle := fun _ _ _ => StepResult.done mNan

/-- An oracle interrupted by the user at iteration 2, clean otherwise. -/
def stepIntAt2 : Oracle :=
  fun _ i _ => if i = 2 then StepResult.interrupted else StepResult.done (mk 1)

/-- The label row `0, 1, ..., 54` for the results-extraction instance. -/
def zRowC3 : List Int := (List.range 55).map Int.ofNat

/-- A latent row of time length 60. -/
def xRowC3 : List (List Num) := List.replicate 60 [Num.fin 0]

/-- A heading row of time length 60. -/
def hRowC3 : List Num := List.replicate 60 (Num.fin 0)

/-- Model for the results-extraction instance: `x` time length 60, `z` time
length 55, so `nlags = 5`. -/
def c3Model : MState :=
  { states := { z := [zRowC3], x := [xRowC3], v := [xRowC3], h := [hRowC3] },
    params := [], hypparams := some [], seed := 0 }

/-- Metadata for the results-extraction instance: one recording with
bounds `(10, 50)`. -/
def c3Md : Metadata := { keys := ["rec"], bounds := [(10, 50)] }

/-- Model with a single scalar float hyperparameter `kappa = 10.0`. -/
def mdC7 : MState :=
  { states := emptySt, params := [],
    hypparams := some [("trans_hypparams", [("kappa", HypValue.scalar (Scalar.f 10))])],
    seed := 0 }

/-- Model with a single scalar int hyperparameter `alpha = 1`. -/
def mdC8 : MState :=
  { states := emptySt, params := [],
    hypparams := some [("trans_hypparams", [("alpha", HypValue.scalar (Scalar.i 1))])],
    seed := 0 }

/-- Model dictionary lacking the `hypparams` container. -/
def mdC9 : MState :=
  { states := emptySt, params := [], hypparams := none, seed := 0 }

/-- Model whose `kappa` occurs as a scalar in two distinct groups. -/
def mdC10 : MState :=
  { states := emptySt, params := [],
    hypparams := some
      [("g1", [("kappa", HypValue.scalar (Scalar.f 10))]),
       ("g2", [("kappa", HypValue.scalar (Scalar.f 20))])],
    seed := 0 }

/-! ### Helper lemmas -/

/-- Python `list.remove` fails exactly on absent elements. -/
lemma listRemove_not_mem (k : String) :
    ∀ (xs : List String), k ∉ xs → listRemove xs k = .error .removeMissing := by
  intro xs
  induction xs with
  | nil => intro _; rfl
  | cons x rest ih =>
    intro h
    have hx : ¬x = k := fun hxk => h (by simp [hxk])
    have hr : k ∉ rest := fun hk => h (List.mem_cons_of_mem _ hk)
    simp [listRemove, hx, ih hr, Except.map]

/-- A group containing none of the requested keys is scanned without
effect. -/
lemma updateGroup_nomatch (g : HypGroup) :
    ∀ (kwargs : List (String × Scalar)) (nu : List String) (adv : List Advisory),
      (∀ q ∈ kwargs, lookupStr g q.1 = none) →
      updateGroup g kwargs nu adv = .ok (g, nu, adv) := by
  intro kwargs
  induction kwargs with
  | nil => intro nu adv _; rfl
  | cons q rest ih =>
    intro nu adv h
    have hq : lookupStr g q.1 = none := h q (List.mem_cons_self q rest)
    have hr : ∀ p ∈ rest, lookupStr g p.1 = none :=
      fun p hp => h p (List.mem_cons_of_mem _ hp)
    simp only [updateGroup, hq]
    exact ih nu adv hr

/-- Scanning groups that contain none of the requested keys changes
nothing. -/
lemma updateGroups_nomatch :
    ∀ (groups : Hypparams) (kwargs : List (String × Scalar)) (nu : List String)
      (adv : List Advisory),
      (∀ p ∈ groups, ∀ q ∈ kwargs, lookupStr p.2 q.1 = none) →
      updateGroups groups kwargs nu adv = .ok (groups, nu, adv) := by
  intro groups
  induction groups with
  | nil => intro kwargs nu adv _; rfl
  | cons p rest ih =>
    intro kwargs nu adv h
    have hp := h p (List.mem_cons_self p rest)
    have hr : ∀ p' ∈ rest, ∀ q ∈ kwargs, lookupStr p'.2 q.1 = none :=
      fun p' hp' => h p' (List.mem_cons_of_mem _ hp')
    simp only [updateGroups, updateGroup_nomatch p.2 kwargs nu adv hp,
      ih kwargs nu adv hr]

/-- Scanning one group holding a scalar match, with the key still in the
not-updated list `[k]`: the value is overwritten with the cast and the key
is removed. -/
lemma updateGroup_scalar_single (g : HypGroup) (k : String) (v s : Scalar)
    (adv : List Advisory) (hg : lookupStr g k = some (.scalar s)) :
    updateGroup g [(k, v)] [k] adv =
      .ok (assocSet g k (.scalar (Scalar.cast s.ty v)), [],
        if v.ty = s.ty then adv else adv ++ [.typeCast k v.ty s.ty]) := by
  simp only [updateGroup, hg, listRemove, if_pos rfl]
  by_cases ht : v.ty = s.ty <;> simp [ht, updateGroup]

/-- Scanning one group holding a scalar match after the key has already
been removed from the not-updated list fails (`list.remove` raises). -/
lemma updateGroup_scalar_removed (g : HypGroup) (k : String) (v s : Scalar)
    (nu : List String) (adv : List Advisory)
    (hg : lookupStr g k = some (.scalar s)) (hnu : k ∉ nu) :
    updateGroup g [(k, v)] nu adv = .error .removeMissing := by
  simp only [updateGroup, hg, listRemove_not_mem k nu hnu]

/-- Whether a group holds a scalar value under the requested key. -/
def isScalarMatch (g : HypGroup) (k : String) : Bool :=
  match lookupStr g k with
  | some (.scalar _) => true
  | _ => false

/-- Number of groups holding a scalar value under the requested key. -/
def scalarMatchCount (groups : Hypparams) (k : String) : Nat :=
  groups.countP (fun p => isScalarMatch p.2 k)

/-- Once the requested key has left the not-updated list, the next group
holding it as a scalar makes the scan fail. -/
lemma updateGroups_error_of_removed (k : String) (v : Scalar) :
    ∀ (groups : Hypparams) (nu : List String) (adv : List Advisory),
      k ∉ nu → 1 ≤ scalarMatchCount groups k →
      updateGroups groups [(k, v)] nu adv = .error .removeMissing := by
  intro groups
  induction groups with
  | nil => intro nu adv _ hcount; simp [scalarMatchCount] at hcount
  | cons p rest ih =>
    intro nu adv hnu hcount
    by_cases hm : isScalarMatch p.2 k = true
    · obtain ⟨s, hs⟩ : ∃ s, lookupStr p.2 k = some (.scalar s) := by
        unfold isScalarMatch at hm
        rcases hl : lookupStr p.2 k with _ | val
        · rw [hl] at hm; simp at hm
        · rcases val with s | xs
          · exact ⟨s, rfl⟩
          · rw [hl] at hm; simp at hm
      simp only [updateGroups, updateGroup_scalar_removed p.2 k v s nu adv hs hnu]
    · have hrest : 1 ≤ scalarMatchCount rest k := by
        have : scalarMatchCount (p :: rest) k = scalarMatchCount rest k := by
          simp [scalarMatchCount, List.countP_cons, hm]
        omega
      have hupd : updateGroup p.2 [(k, v)] nu adv = .ok (p.2, nu, adv) ∨
          updateGroup p.2 [(k, v)] nu adv = .ok (p.2, nu, adv ++ [.notScalar k]) := by
        unfold isScalarMatch at hm
        rcases hl : lookupStr p.2 k with _ | val
        · left; exact updateGroup_nomatch p.2 [(k, v)] nu adv (by simp [hl])
        · rcases val with s | xs
          · rw [hl] at hm; simp at hm
          · right; simp [updateGroup, hl]
      rcases hupd with hupd | hupd <;>
        simp only [updateGroups, hupd, ih nu _ hnu hrest]

/-- With the requested key present once in the not-updated list, two or
more scalar matches across the groups make the scan fail. -/
lemma updateGroups_error_of_dup (k : String) (v : Scalar) :
    ∀ (groups : Hypparams) (adv : List Advisory),
      2 ≤ scalarMatchCount groups k →
      updateGroups groups [(k, v)] [k] adv = .error .removeMissing := by
  intro groups
  induction groups with
  | nil => intro adv hcount; simp [scalarMatchCount] at hcount
  | cons p rest ih =>
    intro adv hcount
    by_cases hm : isScalarMatch p.2 k = true
    · obtain ⟨s, hs⟩ : ∃ s, lookupStr p.2 k = some (.scalar s) := by
        unfold isScalarMatch at hm
        rcases hl : lookupStr p.2 k with _ | val
        · rw [hl] at hm; simp at hm
        · rcases val with s | xs
          · exact ⟨s, rfl⟩
          · rw [hl] at hm; simp at hm
      have hrest : 1 ≤ scalarMatchCount rest k := by
        have : scalarMatchCount (p :: rest) k = scalarMatchCount rest k + 1 := by
          simp [scalarMatchCount, List.countP_cons, hm]
        omega
      simp only [updateGroups, updateGroup_scalar_single p.2 k v s adv hs,
        updateGroups_error_of_removed k v rest [] _ (by simp) hrest]
    · have hrest : 2 ≤ scalarMatchCount rest k := by
        have : scalarMatchCount (p :: rest) k = scalarMatchCount rest k := by
          simp [scalarMatchCount, List.countP_cons, hm]
        omega
      have hupd : updateGroup p.2 [(k, v)] [k] adv = .ok (p.2, [k], adv) ∨
          updateGroup p.2 [(k, v)] [k] adv = .ok (p.2, [k], adv ++ [.notScalar k]) := by
        unfold isScalarMatch at hm
        rcases hl : lookupStr p.2 k with _ | val
        · left; exact updateGroup_nomatch p.2 [(k, v)] [k] adv (by simp [hl])
        · rcases val with s | xs
          · rw [hl] at hm; simp at hm
          · right; simp [updateGroup, hl]
      rcases hupd with hupd | hupd <;> simp only [updateGroups, hupd, ih _ hrest]

/-- Scanning groups where exactly one group holds the requested key (as a
scalar) and no other group mentions it: the match group is rewritten, the
key leaves the not-updated list, and at most one cast advisory is
emitted. -/
lemma updateGroups_single_scalar (k : String) (v s : Scalar) (gn : String)
    (g : HypGroup) :
    ∀ (pre post : Hypparams) (adv : List Advisory),
      (∀ p ∈ pre, lookupStr p.2 k = none) →
      (∀ p ∈ post, lookupStr p.2 k = none) →
      lookupStr g k = some (.scalar s) →
      updateGroups (pre ++ (gn, g) :: post) [(k, v)] [k] adv =
        .ok (pre ++ (gn, assocSet g k (.scalar (Scalar.cast s.ty v))) :: post, [],
          if v.ty = s.ty then adv else adv ++ [.typeCast k v.ty s.ty]) := by
  intro pre
  induction pre with
  | nil =>
    intro post adv _ hpost hg
    simp only [List.nil_append, updateGroups,
      updateGroup_scalar_single g k v s adv hg,
      updateGroups_nomatch post [(k, v)] [] _
        (fun p hp q hq => by
          have : q = (k, v) := by simpa using hq
          subst this; exact hpost p hp)]
  | cons p pre' ih =>
    intro post adv hpre hpost hg
    have hp : lookupStr p.2 k = none := hpre p (List.mem_cons_self p pre')
    have hpre' : ∀ p' ∈ pre', lookupStr p'.2 k = none :=
      fun p' hp' => hpre p' (List.mem_cons_of_mem _ hp')
    simp only [List.cons_append, updateGroups,
      updateGroup_nomatch p.2 [(k, v)] [k] adv
        (fun q hq => by
          have : q = (k, v) := by simpa using hq
          subst this; exact hp),
      List.append_eq, ih post adv hpre' hpost hg, Prod.mk.eta]

/-! ### Fitting-loop lemmas -/

/-- Unfolding lemma for the iteration range. -/
lemma range'_cons (s n : Nat) :
    List.range' s (n + 1) = s :: List.range' (s + 1) n := rfl

/-- Keys after an incremental snapshot write. -/
lemma any_setKey (i : Nat) (m : MState) (k : Nat) :
    ∀ xs : List (Nat × MState),
      ((setKey xs i m).any (fun p => p.1 == k) = true) ↔
        (k = i ∨ xs.any (fun p => p.1 == k) = true) := by
  intro xs
  induction xs with
  | nil =>
    simp only [setKey, List.any_cons, List.any_nil, Bool.or_false, beq_iff_eq,
      Bool.false_eq_true, or_false]
    exact eq_comm
  | cons p rest ih =>
    by_cases hp : p.1 = i
    · simp only [setKey, if_pos hp, List.any_cons, Bool.or_eq_true, beq_iff_eq]
      constructor
      · rintro (h | h)
        · exact Or.inl h.symm
        · exact Or.inr (Or.inr h)
      · rintro (h | h | h)
        · exact Or.inl h.symm
        · exact Or.inl (hp.symm.trans h)
        · exact Or.inr h
    · simp only [setKey, if_neg hp, List.any_cons, Bool.or_eq_true, beq_iff_eq, ih]
      tauto

/-- Key membership after a snapshot write: the new key, plus everything
already present. -/
lemma hasKey_saveSnapshot (c : Checkpoint) (i : Nat) (m : MState) (k : Nat) :
    hasKey (saveSnapshot c i m) k = true ↔ (k = i ∨ hasKey c k = true) :=
  any_setKey i m k c.snapshots

/-- The save condition, propositionally. -/
lemma saveGuard_eq_true_iff (se si ni i : Nat) :
    saveGuard se si ni i = true ↔ (0 < se ∧ si < i ∧ (i % se = 0 ∨ i = ni)) := by
  simp [saveGuard, and_assoc]

/-- Folding saves over an absent store leaves it absent. -/
lemma cleanSaves_none (se si ni : Nat) (traj : Nat → MState) :
    ∀ iters : List Nat, cleanSaves se si ni traj iters none = none := by
  intro iters
  induction iters with
  | nil => rfl
  | cons i rest ih =>
    by_cases hg : saveGuard se si ni i = true <;> simp [cleanSaves, hg, ih]

/-- Folding the guarded saves of a clean run over a present store: the
final keys are the initial keys plus every iteration meeting the save
condition; `metadata` and `data` are untouched. -/
lemma cleanSaves_some (se si ni : Nat) (traj : Nat → MState) :
    ∀ (iters : List Nat) (c : Checkpoint),
      ∃ c', cleanSaves se si ni traj iters (some c) = some c' ∧
        c'.metadata = c.metadata ∧ c'.data = c.data ∧
        ∀ k, (hasKey c' k = true ↔
          (hasKey c k = true ∨ (k ∈ iters ∧ saveGuard se si ni k = true))) := by
  intro iters
  induction iters with
  | nil =>
    intro c
    exact ⟨c, rfl, rfl, rfl, fun k => by simp⟩
  | cons i rest ih =>
    intro c
    by_cases hg : saveGuard se si ni i = true
    · obtain ⟨c', h1, h2, h3, h4⟩ := ih (saveSnapshot c i (traj (i + 1)))
      refine ⟨c', ?_, ?_, ?_, ?_⟩
      · simpa [cleanSaves, hg] using h1
      · simpa [saveSnapshot] using h2
      · simpa [saveSnapshot] using h3
      · intro k
        rw [h4 k, hasKey_saveSnapshot]
        constructor
        · rintro ((h | h) | h)
          · subst h; exact Or.inr ⟨List.mem_cons_self _ _, hg⟩
          · exact Or.inl h
          · exact Or.inr ⟨List.mem_cons_of_mem _ h.1, h.2⟩
        · rintro (h | ⟨hm, hgk⟩)
          · exact Or.inl (Or.inr h)
          · rcases List.mem_cons.mp hm with h | h
            · exact Or.inl (Or.inl h)
            · exact Or.inr ⟨h, hgk⟩
    · obtain ⟨c', h1, h2, h3, h4⟩ := ih c
      refine ⟨c', ?_, h2, h3, ?_⟩
      · simpa [cleanSaves, hg] using h1
      · intro k
        rw [h4 k]
        constructor
        · rintro (h | h)
          · exact Or.inl h
          · exact Or.inr ⟨List.mem_cons_of_mem _ h.1, h.2⟩
        · rintro (h | ⟨hm, hgk⟩)
          · exact Or.inl h
          · rcases List.mem_cons.mp hm with h | h
            · subst h; exact absurd hgk hg
            · exact Or.inr ⟨h, hgk⟩

/-- A loop that never had a store never creates one. -/
lemma fitLoop_store_none (step : Oracle) (opts : ROpts) (se si ni : Nat) (gp : Bool) :
    ∀ (iters : List Nat) (m : MState),
      (fitLoop step opts se si ni gp iters m none).2.1 = none := by
  intro iters
  induction iters with
  | nil => intro m; rfl
  | cons i rest ih =>
    intro m
    cases hw : wrapped_resample step opts i m with
    | error e => simp [fitLoop, hw]
    | ok m' =>
      by_cases hg : saveGuard se si ni i = true <;> simp [fitLoop, hw, hg, ih]

/-- With checkpointing disabled (`save_every_n_iters = 0`), every event of
the loop trace is a resampling call with the loop's options. -/
lemma fitLoop_trace_resample (step : Oracle) (opts : ROpts) (si ni : Nat) (gp : Bool) :
    ∀ (iters : List Nat) (m : MState) (store : Option Checkpoint),
      ∀ e ∈ (fitLoop step opts 0 si ni gp iters m store).2.2,
        ∃ i, e = Event.resample opts i := by
  intro iters
  induction iters with
  | nil => intro m store e he; simp [fitLoop] at he
  | cons i rest ih =>
    intro m store e he
    cases hw : wrapped_resample step opts i m with
    | error err =>
      simp [fitLoop, hw] at he
      exact ⟨i, he⟩
    | ok m' =>
      have hg : saveGuard 0 si ni i = false := by simp [saveGuard]
      simp only [fitLoop, hw, hg, Bool.false_eq_true, if_false, List.nil_append] at he
      rcases List.mem_cons.mp he with he | he
      · exact ⟨i, he⟩
      · exact ih _ _ e he

/-- A clean run over `range' s len` along trajectory `traj` ends in
`traj (s + len)` with the store given by the guarded save fold. -/
lemma fitLoop_clean_traj (step : Oracle) (opts : ROpts) (se si ni : Nat) (gp : Bool)
    (traj : Nat → MState) :
    ∀ (len s : Nat) (store : Option Checkpoint),
      (∀ i, s ≤ i → i < s + len →
        step opts i (traj i) = .done (traj (i + 1)) ∧
        checkForNans (traj (i + 1)) = false) →
      (fitLoop step opts se si ni gp (List.range' s len) (traj s) store).1 = traj (s + len) ∧
      (fitLoop step opts se si ni gp (List.range' s len) (traj s) store).2.1 =
        cleanSaves se si ni traj (List.range' s len) store := by
  intro len
  induction len with
  | zero => intro s store _; simp [fitLoop, cleanSaves]
  | succ n ih =>
    intro s store h
    obtain ⟨hstep, hnan⟩ := h s (Nat.le_refl s) (by omega)
    have hw : wrapped_resample step opts s (traj s) = .ok (traj (s + 1)) := by
      simp [wrapped_resample, hstep, hnan]
    have h' : ∀ i, s + 1 ≤ i → i < (s + 1) + n →
        step opts i (traj i) = .done (traj (i + 1)) ∧
        checkForNans (traj (i + 1)) = false :=
      fun i h1 h2 => h i (by omega) (by omega)
    obtain ⟨ih1, ih2⟩ := ih (s + 1)
      (if saveGuard se si ni s then
        store.map (fun c => saveSnapshot c s (traj (s + 1))) else store) h'
    rw [range'_cons]
    constructor
    · simp only [fitLoop, hw]
      rw [ih1]
      congr 1
      omega
    · simp only [fitLoop, hw]
      rw [ih2]
      simp only [cleanSaves]

/-- A run that is clean along `range' s len` and stops (diverges or is
interrupted) at iteration `s + len` returns the state adopted after the
clean prefix, and the store is exactly the guarded save fold of the clean
prefix: nothing is written for the stopping iteration or after it. -/
lemma fitLoop_prefix_fail (step : Oracle) (opts : ROpts) (se si ni : Nat) (gp : Bool)
    (traj : Nat → MState) :
    ∀ (len s : Nat) (rest : List Nat) (store : Option Checkpoint) (err : StopKind),
      (∀ i, s ≤ i → i < s + len →
        step opts i (traj i) = .done (traj (i + 1)) ∧
        checkForNans (traj (i + 1)) = false) →
      wrapped_resample step opts (s + len) (traj (s + len)) = .error err →
      (fitLoop step opts se si ni gp (List.range' s len ++ (s + len) :: rest)
        (traj s) store).1 = traj (s + len) ∧
      (fitLoop step opts se si ni gp (List.range' s len ++ (s + len) :: rest)
        (traj s) store).2.1 = cleanSaves se si ni traj (List.range' s len) store := by
  intro len
  induction len with
  | zero =>
    intro s rest store err _ herr
    simp only [Nat.add_zero] at herr
    simp [fitLoop, cleanSaves, herr]
  | succ n ih =>
    intro s rest store err h herr
    obtain ⟨hstep, hnan⟩ := h s (Nat.le_refl s) (by omega)
    have hw : wrapped_resample step opts s (traj s) = .ok (traj (s + 1)) := by
      simp [wrapped_resample, hstep, hnan]
    have h' : ∀ i, s + 1 ≤ i → i < (s + 1) + n →
        step opts i (traj i) = .done (traj (i + 1)) ∧
        checkForNans (traj (i + 1)) = false :=
      fun i h1 h2 => h i (by omega) (by omega)
    have hsum : s + (n + 1) = (s + 1) + n := by omega
    rw [hsum] at herr
    obtain ⟨ih1, ih2⟩ := ih (s + 1) rest
      (if saveGuard se si ni s then
        store.map (fun c => saveSnapshot c s (traj (s + 1))) else store) err h' herr
    rw [range'_cons, hsum]
    constructor
    · simp only [List.cons_append, List.append_eq, fitLoop, hw]
      rw [ih1]
    · simp only [List.cons_append, List.append_eq, fitLoop, hw]
      rw [ih2]
      simp only [cleanSaves]

/-! ### Claim theorems: hyperparameter editor, parallel flag, results -/

/-- C7: for a model whose hypparams hold the requested key as a scalar in
exactly one group, `update_hypparams` overwrites it with the new value
coerced to the current value's scalar type, and emits a cast advisory
exactly when the provided value's type differs from the current type. -/
theorem update_hypparams_scalar_coerce (md : MState) (k : String) (v s : Scalar)
    (gn : String) (g : HypGroup) (pre post : Hypparams)
    (hmd : md.hypparams = some (pre ++ (gn, g) :: post))
    (hpre : ∀ p ∈ pre, lookupStr p.2 k = none)
    (hpost : ∀ p ∈ post, lookupStr p.2 k = none)
    (hg : lookupStr g k = some (.scalar s)) :
    update_hypparams md [(k, v)] =
      .ok ({ md with
               hypparams := some
                 (pre ++ (gn, assocSet g k (.scalar (Scalar.cast s.ty v))) :: post) },
           if v.ty = s.ty then [] else [.typeCast k v.ty s.ty]) := by
  simp only [update_hypparams, hmd, List.map_cons, List.map_nil,
    updateGroups_single_scalar k v s gn g pre post [] hpre hpost hg]
  by_cases ht : v.ty = s.ty <;> simp [ht]

/-- C7 witness: updating the floating hyperparameter `kappa = 10.0` with
the integral value `5` yields the floating value `5.0` plus a cast
advisory. -/
theorem update_hypparams_scalar_coerce_witness :
    update_hypparams mdC7 [("kappa", Scalar.i 5)] =
      .ok ({ mdC7 with
               hypparams := some
                 [("trans_hypparams", [("kappa", HypValue.scalar (Scalar.f 5))])] },
           [Advisory.typeCast "kappa" PyType.int PyType.float]) := by
  have h := update_hypparams_scalar_coerce mdC7 "kappa" (Scalar.i 5) (Scalar.f 10)
    "trans_hypparams" [("kappa", HypValue.scalar (Scalar.f 10))] [] []
    rfl (by simp) (by simp) rfl
  have hc : Scalar.cast (Scalar.f 10).ty (Scalar.i 5) = Scalar.f 5 := by
    simp [Scalar.cast, Scalar.ty]
  rw [hc] at h
  simpa [assocSet, Scalar.ty] using h

/-- C8: a call whose requested keys match no entry in any group leaves the
model unchanged and emits exactly one advisory, listing the unmatched
keys. -/
theorem update_hypparams_unmatched (md : MState) (groups : Hypparams)
    (kwargs : List (String × Scalar))
    (hmd : md.hypparams = some groups) (hne : kwargs ≠ [])
    (hnm : ∀ q ∈ kwargs, ∀ p ∈ groups, lookupStr p.2 q.1 = none) :
    update_hypparams md kwargs =
      .ok (md, [.notFound (kwargs.map (fun p => p.1))]) := by
  have h := updateGroups_nomatch groups kwargs (kwargs.map (fun p => p.1)) []
    (fun p hp q hq => hnm q hq p hp)
  have hise : (kwargs.map (fun p => p.1)).isEmpty = false := by
    cases kwargs with
    | nil => exact absurd rfl hne
    | cons a l => rfl
  have hmdeq : ({ md with hypparams := some groups } : MState) = md := by
    cases md; simp_all
  simp [update_hypparams, hmd, h, hise, hmdeq]

/-- C8 witness: the unmatched key `"foobar"` leaves the model unchanged and
emits exactly the single advisory naming it. -/
theorem update_hypparams_unmatched_witness :
    update_hypparams mdC8 [("foobar", Scalar.i 5)] =
      .ok (mdC8, [Advisory.notFound ["foobar"]]) := by
  have h := update_hypparams_unmatched mdC8
    [("trans_hypparams", [("alpha", HypValue.scalar (Scalar.i 1))])]
    [("foobar", Scalar.i 5)] rfl (by simp)
    (by intro q hq p hp; simp at hq hp; subst hq; subst hp; rfl)
  simpa using h

/-- C9: a model dictionary lacking the hyperparameter container fails
immediately with the missing-container error, performing no update. -/
theorem update_hypparams_missing_container (md : MState)
    (kwargs : List (String × Scalar)) (hmd : md.hypparams = none) :
    update_hypparams md kwargs = .error .missingHypparams := by
  simp [update_hypparams, hmd]

/-- C9 witness: the missing-container failure at a concrete model. -/
theorem update_hypparams_missing_container_witness :
    update_hypparams mdC9 [("kappa", Scalar.i 5)] = .error .missingHypparams :=
  update_hypparams_missing_container mdC9 [("kappa", Scalar.i 5)] rfl

/-- C10: when the requested key occurs as a scalar in two or more distinct
groups, `update_hypparams` fails (the second `list.remove` of the key
raises) instead of completing the update across all groups. -/
theorem update_hypparams_duplicate_key (md : MState) (groups : Hypparams)
    (k : String) (v : Scalar) (hmd : md.hypparams = some groups)
    (hdup : 2 ≤ scalarMatchCount groups k) :
    update_hypparams md [(k, v)] = .error .removeMissing := by
  simp only [update_hypparams, hmd, List.map_cons, List.map_nil,
    updateGroups_error_of_dup k v groups [] hdup]

/-- C10 witness: `kappa` scalar in two groups makes the update raise. -/
theorem update_hypparams_duplicate_key_witness :
    update_hypparams mdC10 [("kappa", Scalar.f 5)] = .error .removeMissing :=
  update_hypparams_duplicate_key mdC10
    [("g1", [("kappa", HypValue.scalar (Scalar.f 10))]),
     ("g2", [("kappa", HypValue.scalar (Scalar.f 20))])]
    "kappa" (Scalar.f 5) rfl
    (by simp [scalarMatchCount, isScalarMatch, List.countP, List.countP.go, lookupStr])

/-- C5: resolution of the parallel-message-passing flag as a pure function
of the requested flag and the backend kind: `'force'` enables with no
advisory; `None` enables iff the backend is not CPU, with no advisory; an
explicit boolean is kept, and the advisory fires exactly for an explicit
`True` on a CPU backend. -/
theorem set_parallel_flag_resolution :
    (∀ c, set_parallel_flag .force c = (true, false)) ∧
    (∀ c, (set_parallel_flag .unset c).1 = !c ∧
      (set_parallel_flag .unset c).2 = false) ∧
    set_parallel_flag (.flag true) true = (true, true) ∧
    (∀ b c, (set_parallel_flag (.flag b) c).1 = b) ∧
    (∀ b c, ((set_parallel_flag (.flag b) c).2 = true ↔ (b = true ∧ c = true))) := by
  decide

/-- C5 witness: concrete evaluations of the flag resolution taken from the
general theorem. -/
theorem set_parallel_flag_resolution_witness :
    set_parallel_flag .force true = (true, false) ∧
    set_parallel_flag (.flag true) true = (true, true) :=
  ⟨set_parallel_flag_resolution.1 true, set_parallel_flag_resolution.2.2.1⟩

/-- C3 (divergence of the code from the claim): for bounds `(10, 50)` and
`nlags = 5`, `extract_results` produces a syllable array of length 45
(`end - start + nlags`), not 40 — while latent state, centroid and heading
all have length 40; the left padding does duplicate the first retained
value 5 extra times. -/
theorem extract_results_lag_mismatch :
    (extract_results c3Model c3Md).map
      (fun p => (p.1, p.2.syllable.length, p.2.latent_state.length,
        p.2.centroid.length, p.2.heading.length)) = [("rec", 45, 40, 40, 40)] ∧
    (extract_results c3Model c3Md).map (fun p => p.2.syllable.take 7) =
      [[15, 15, 15, 15, 15, 15, 16]] ∧
    timeLen c3Model.states.x - timeLen c3Model.states.z = 5 := by
  decide

/-! ### Claim theorems: fitting orchestrator -/

/-- C1: for a run with `save_every_n_iters > 0` starting with no existing
checkpoint artifact and never stopped early, the final artifact holds
`metadata` and `data`, and a snapshot exists under iteration key `k`
exactly when `k = start_iter` (written at artifact creation) or
`start_iter < k ≤ num_iters` with `k % save_every_n_iters = 0` or
`k = num_iters`.  With `num_iters = 20`, `start_iter = 0`,
`save_every_n_iters = 5` these keys are exactly `{0, 5, 10, 15, 20}`. -/
theorem fit_model_snapshot_schedule (step : Oracle) (traj : Nat → MState)
    (data : Data) (md : Metadata) (name : String) (ni si se : Nat) (gp ar : Bool)
    (hsn : si ≤ ni) (hse : 0 < se)
    (hrun : ∀ i, si ≤ i → i ≤ ni →
      step { arOnly := ar, statesOnly := false } i (traj i) = .done (traj (i + 1)) ∧
      checkForNans (traj (i + 1)) = false) :
    ∃ c, (fit_model step (traj si) data md name ni si se gp ar none).store = some c ∧
      c.metadata = md ∧ c.data = data ∧
      ∀ k, (hasKey c k = true ↔
        (k = si ∨ (si < k ∧ k ≤ ni ∧ (k % se = 0 ∨ k = ni)))) := by
  have hclean : ∀ i, si ≤ i → i < si + (ni + 1 - si) →
      step { arOnly := ar, statesOnly := false } i (traj i) = .done (traj (i + 1)) ∧
      checkForNans (traj (i + 1)) = false :=
    fun i h1 h2 => hrun i h1 (by omega)
  obtain ⟨h1, h2⟩ := fitLoop_clean_traj step { arOnly := ar, statesOnly := false }
    se si ni (gp && decide (se ≠ 0)) traj (ni + 1 - si) si
    (some { snapshots := [(si, traj si)], metadata := md, data := data }) hclean
  obtain ⟨c', hcs, hm, hd, hk⟩ := cleanSaves_some se si ni traj
    (List.range' si (ni + 1 - si))
    { snapshots := [(si, traj si)], metadata := md, data := data }
  refine ⟨c', ?_, hm, hd, ?_⟩
  · simp only [fit_model]
    rw [if_pos hse, Option.getD_none, h2, hcs]
  · intro k
    rw [hk k]
    have hc0 : hasKey { snapshots := [(si, traj si)], metadata := md, data := data } k
        = true ↔ k = si := by
      simp only [hasKey, List.any_cons, List.any_nil, Bool.or_false, beq_iff_eq]
      exact eq_comm
    rw [hc0]
    constructor
    · rintro (h | ⟨hmem, hg⟩)
      · exact Or.inl h
      · rw [List.mem_range'_1] at hmem
        rw [saveGuard_eq_true_iff] at hg
        exact Or.inr ⟨hg.2.1, by omega, hg.2.2⟩
    · rintro (h | ⟨h1', h2', h3'⟩)
      · exact Or.inl h
      · refine Or.inr ⟨?_, ?_⟩
        · rw [List.mem_range'_1]; omega
        · rw [saveGuard_eq_true_iff]; exact ⟨hse, h1', h3'⟩

/-- C1 witness: a fully clean run with `num_iters = 20`, `start_iter = 0`,
`save_every_n_iters = 5` holds snapshots at `0, 5, 10, 15, 20` and at no
other key such as `3` or `7`. -/
theorem fit_model_snapshot_schedule_witness :
    ∃ c, (fit_model (stepConst (mk 0)) (mk 0) [] cMd "model" 20 0 5
        false false none).store = some c ∧
      (hasKey c 0, hasKey c 3, hasKey c 5, hasKey c 7, hasKey c 10,
        hasKey c 15, hasKey c 20) = (true, false, true, false, true, true, true) := by
  obtain ⟨c, hc, _, _, hk⟩ := fit_model_snapshot_schedule (stepConst (mk 0))
    (trajConst (mk 0)) [] cMd "model" 20 0 5 false false (by omega) (by omega)
    (by
      intro i h1 h2
      refine ⟨rfl, ?_⟩
      show checkForNans (mk 0) = false
      decide)
  refine ⟨c, hc, ?_⟩
  have h0 : hasKey c 0 = true := (hk 0).mpr (Or.inl rfl)
  have h5 : hasKey c 5 = true :=
    (hk 5).mpr (Or.inr ⟨by omega, by omega, Or.inl (by omega)⟩)
  have h10 : hasKey c 10 = true :=
    (hk 10).mpr (Or.inr ⟨by omega, by omega, Or.inl (by omega)⟩)
  have h15 : hasKey c 15 = true :=
    (hk 15).mpr (Or.inr ⟨by omega, by omega, Or.inl (by omega)⟩)
  have h20 : hasKey c 20 = true :=
    (hk 20).mpr (Or.inr ⟨by omega, by omega, Or.inr rfl⟩)
  have h3 : hasKey c 3 = false := by
    cases hb : hasKey c 3
    · rfl
    · rcases (hk 3).mp hb with h | ⟨ha, hb', hc' | hc'⟩ <;> omega
  have h7 : hasKey c 7 = false := by
    cases hb : hasKey c 7
    · rfl
    · rcases (hk 7).mp hb with h | ⟨ha, hb', hc' | hc'⟩ <;> omega
  rw [h0, h3, h5, h7, h10, h15, h20]

/-- C2 counterexample: in a fresh run with `start_iter = 0` and
`save_every_n_iters = 1` whose resampled state is non-finite already at
iteration `k = 0`, the claim's "no snapshot is stored under key k" fails:
the function returns the initial state, yet the checkpoint artifact holds a
snapshot under key `0` — the initial state written at artifact creation. -/
theorem fit_model_divergence_snapshot_at_first_iter :
    checkForNans mNan = true ∧
    (fit_model stepNan (mk 0) [] cMd "model" 2 0 1 false false none).model = mk 0 ∧
    ((fit_model stepNan (mk 0) [] cMd "model" 2 0 1 false false none).store.map
      (fun c => hasKey c 0)) = some true := by
  exact ⟨by decide, rfl, rfl⟩

/-- C2 (amended): if the resampled state is first non-finite at iteration
`k`, `fit_model` stops there, returns the last clean state `traj k` (the
state adopted after iteration `k - 1`, or the initial state when
`k = start_iter`), and — when `k > start_iter` — the checkpoint artifact of
a fresh run holds no snapshot under key `k` (for `k = start_iter` the
artifact still holds the initial state written at creation). -/
theorem fit_model_divergence_stops (step : Oracle) (traj : Nat → MState)
    (data : Data) (md : Metadata) (name : String) (ni si se k : Nat) (gp ar : Bool)
    (hk1 : si ≤ k) (hk2 : k ≤ ni)
    (hclean : ∀ i, si ≤ i → i < k →
      step { arOnly := ar, statesOnly := false } i (traj i) = .done (traj (i + 1)) ∧
      checkForNans (traj (i + 1)) = false)
    (hdiv : ∃ bad, step { arOnly := ar, statesOnly := false } k (traj k) = .done bad ∧
      checkForNans bad = true) :
    (fit_model step (traj si) data md name ni si se gp ar none).model = traj k ∧
    (si < k → ∀ c,
      (fit_model step (traj si) data md name ni si se gp ar none).store = some c →
      hasKey c k = false) := by
  obtain ⟨bad, hbad, hnanbad⟩ := hdiv
  have herr : wrapped_resample step { arOnly := ar, statesOnly := false } k (traj k)
      = .error .diverged := by
    simp [wrapped_resample, hbad, hnanbad]
  have heq : si + (k - si) = k := by omega
  have hsplit : List.range' si (ni + 1 - si) =
      List.range' si (k - si) ++ (si + (k - si)) :: List.range' (k + 1) (ni - k) := by
    have hlen : ni + 1 - si = ((ni - k) + 1) + (k - si) := by omega
    rw [hlen, ← List.range'_append_1, heq, range'_cons]
  have hclean' : ∀ i, si ≤ i → i < si + (k - si) →
      step { arOnly := ar, statesOnly := false } i (traj i) = .done (traj (i + 1)) ∧
      checkForNans (traj (i + 1)) = false :=
    fun i h1 h2 => hclean i h1 (by omega)
  have herr' : wrapped_resample step { arOnly := ar, statesOnly := false }
      (si + (k - si)) (traj (si + (k - si))) = .error .diverged := by
    rw [heq]; exact herr
  have hmain := fun (store : Option Checkpoint) =>
    fitLoop_prefix_fail step { arOnly := ar, statesOnly := false } se si ni
      (gp && decide (se ≠ 0)) traj (k - si) si (List.range' (k + 1) (ni - k))
      store .diverged hclean' herr'
  constructor
  · simp only [fit_model]
    rw [hsplit, (hmain _).1, heq]
  · intro hlt c hc
    simp only [fit_model] at hc
    rw [hsplit, (hmain _).2] at hc
    by_cases hse : 0 < se
    · rw [if_pos hse, Option.getD_none] at hc
      obtain ⟨c', hcs, _, _, hkc⟩ := cleanSaves_some se si ni traj
        (List.range' si (k - si))
        { snapshots := [(si, traj si)], metadata := md, data := data }
      rw [hcs] at hc
      obtain rfl : c' = c := Option.some.inj hc
      cases hb : hasKey c' k
      · rfl
      · exfalso
        rcases (hkc k).mp hb with h | ⟨hm, _⟩
        · simp [hasKey] at h
          omega
        · rw [List.mem_range'_1] at hm
          omega
    · rw [if_neg hse, cleanSaves_none] at hc
      exact Option.noConfusion hc

/-- C2 witness (for the amended claim): with divergence first injected at
iteration 1 of a 20-iteration run, the returned state is the one adopted
after iteration 0 and no snapshot exists under key 1. -/
theorem fit_model_divergence_stops_witness :
    (fit_model stepDivAt1 (mk 0) [] cMd "model" 20 0 5 false false none).model = mk 1 ∧
    ∀ c, (fit_model stepDivAt1 (mk 0) [] cMd "model" 20 0 5 false false none).store
      = some c → hasKey c 1 = false := by
  have h := fit_model_divergence_stops stepDivAt1 trajDiv [] cMd "model" 20 0 5 1
    false false (by omega) (by omega)
    (by
      intro i h1 h2
      have hi : i = 0 := by omega
      subst hi
      exact ⟨rfl, by decide⟩)
    ⟨mNan, rfl, by decide⟩
  exact ⟨h.1, h.2 (by omega)⟩

/-- C4: a user interruption during the resampling call at iteration `k`
terminates the loop gracefully: `fit_model` returns the last known-good
state `traj k` and the run name, and the fresh checkpoint artifact holds
exactly the initial snapshot plus the fully completed snapshots of
iterations before `k` that met the save condition — nothing is written for
the interrupted iteration. -/
theorem fit_model_interrupt (step : Oracle) (traj : Nat → MState)
    (data : Data) (md : Metadata) (name : String) (ni si se k : Nat) (gp ar : Bool)
    (hk1 : si ≤ k) (hk2 : k ≤ ni) (hse : 0 < se)
    (hclean : ∀ i, si ≤ i → i < k →
      step { arOnly := ar, statesOnly := false } i (traj i) = .done (traj (i + 1)) ∧
      checkForNans (traj (i + 1)) = false)
    (hint : step { arOnly := ar, statesOnly := false } k (traj k) = .interrupted) :
    (fit_model step (traj si) data md name ni si se gp ar none).model = traj k ∧
    (fit_model step (traj si) data md name ni si se gp ar none).name = name ∧
    ∃ c, (fit_model step (traj si) data md name ni si se gp ar none).store = some c ∧
      ∀ j, (hasKey c j = true ↔
        (j = si ∨ (si < j ∧ j < k ∧ (j % se = 0 ∨ j = ni)))) := by
  have herr : wrapped_resample step { arOnly := ar, statesOnly := false } k (traj k)
      = .error .cancelled := by
    simp [wrapped_resample, hint]
  have heq : si + (k - si) = k := by omega
  have hsplit : List.range' si (ni + 1 - si) =
      List.range' si (k - si) ++ (si + (k - si)) :: List.range' (k + 1) (ni - k) := by
    have hlen : ni + 1 - si = ((ni - k) + 1) + (k - si) := by omega
    rw [hlen, ← List.range'_append_1, heq, range'_cons]
  have hclean' : ∀ i, si ≤ i → i < si + (k - si) →
      step { arOnly := ar, statesOnly := false } i (traj i) = .done (traj (i + 1)) ∧
      checkForNans (traj (i + 1)) = false :=
    fun i h1 h2 => hclean i h1 (by omega)
  have herr' : wrapped_resample step { arOnly := ar, statesOnly := false }
      (si + (k - si)) (traj (si + (k - si))) = .error .cancelled := by
    rw [heq]; exact herr
  have hmain := fun (store : Option Checkpoint) =>
    fitLoop_prefix_fail step { arOnly := ar, statesOnly := false } se si ni
      (gp && decide (se ≠ 0)) traj (k - si) si (List.range' (k + 1) (ni - k))
      store .cancelled hclean' herr'
  refine ⟨?_, ?_, ?_⟩
  · simp only [fit_model]
    rw [hsplit, (hmain _).1, heq]
  · rfl
  · obtain ⟨c', hcs, _, _, hkc⟩ := cleanSaves_some se si ni traj
      (List.range' si (k - si))
      { snapshots := [(si, traj si)], metadata := md, data := data }
    refine ⟨c', ?_, ?_⟩
    · simp only [fit_model]
      rw [if_pos hse, Option.getD_none, hsplit, (hmain _).2, hcs]
    · intro j
      rw [hkc j]
      have hc0 : hasKey { snapshots := [(si, traj si)], metadata := md, data := data } j
          = true ↔ j = si := by
        simp only [hasKey, List.any_cons, List.any_nil, Bool.or_false, beq_iff_eq]
        exact eq_comm
      rw [hc0]
      constructor
      · rintro (h | ⟨hm, hg⟩)
        · exact Or.inl h
        · rw [List.mem_range'_1] at hm
          rw [saveGuard_eq_true_iff] at hg
          exact Or.inr ⟨hg.2.1, by omega, hg.2.2⟩
      · rintro (h | ⟨h1', h2', h3'⟩)
        · exact Or.inl h
        · refine Or.inr ⟨?_, ?_⟩
          · rw [List.mem_range'_1]; omega
          · rw [saveGuard_eq_true_iff]; exact ⟨hse, h1', h3'⟩

/-- C4 witness: interruption at iteration 2 of a run with
`save_every_n_iters = 1` returns the state adopted after iteration 1 and
the run name; the artifact holds keys 0 (initial) and 1, and nothing under
the interrupted key 2. -/
theorem fit_model_interrupt_witness :
    (fit_model stepIntAt2 (mk 0) [] cMd "model" 5 0 1 false false none).model = mk 1 ∧
    (fit_model stepIntAt2 (mk 0) [] cMd "model" 5 0 1 false false none).name = "model" ∧
    ∃ c, (fit_model stepIntAt2 (mk 0) [] cMd "model" 5 0 1 false false none).store
        = some c ∧
      hasKey c 0 = true ∧ hasKey c 1 = true ∧ hasKey c 2 = false := by
  have h := fit_model_interrupt stepIntAt2 trajDiv [] cMd "model" 5 0 1 2
    false false (by omega) (by omega) (by omega)
    (by
      intro i h1 h2
      have hi : i = 0 ∨ i = 1 := by omega
      rcases hi with hi | hi <;> subst hi <;> exact ⟨rfl, by decide⟩)
    rfl
  obtain ⟨c, hc, hchar⟩ := h.2.2
  refine ⟨h.1, h.2.1, c, hc, ?_, ?_, ?_⟩
  · exact (hchar 0).mpr (Or.inl rfl)
  · exact (hchar 1).mpr (Or.inr ⟨by omega, by omega, Or.inl (by omega)⟩)
  · cases hb : hasKey c 2
    · rfl
    · rcases (hchar 2).mp hb with hx | ⟨ha, hb', _⟩ <;> omega

/-- C6: `apply_model` returns `extract_results` of the final adopted state;
its final state is that of a run of the shared loop started from a fresh
state built by the external initializer from the new data and the supplied
`params` / `hypparams`; every event of its trace is a resampling call with
`states_only = true`; and its loop never creates or writes a checkpoint
store. -/
theorem apply_model_delegates (initM : Data → Params → Option Hypparams → MState)
    (step : Oracle) (model : MState) (data : Data) (md : Metadata)
    (ni : Nat) (ar : Bool) :
    (apply_model initM step model data md ni ar).results =
      extract_results (apply_model initM step model data md ni ar).finalModel md ∧
    (apply_model initM step model data md ni ar).finalModel =
      (fitLoop step { arOnly := ar, statesOnly := true } 0 0 ni false
        (List.range' 0 ni) (initM data model.params model.hypparams) none).1 ∧
    (∀ e ∈ (apply_model initM step model data md ni ar).trace,
      ∃ i, e = Event.resample { arOnly := ar, statesOnly := true } i) ∧
    (fitLoop step { arOnly := ar, statesOnly := true } 0 0 ni false
      (List.range' 0 ni) (initM data model.params model.hypparams) none).2.1 = none := by
  refine ⟨rfl, rfl, ?_, ?_⟩
  · intro e he
    exact fitLoop_trace_resample step { arOnly := ar, statesOnly := true } 0 ni false
      (List.range' 0 ni) (initM data model.params model.hypparams) none e he
  · exact fitLoop_store_none step { arOnly := ar, statesOnly := true } 0 0 ni false
      (List.range' 0 ni) (initM data model.params model.hypparams)

/-- C6 witness: a concrete three-iteration application run delegates to
`extract_results` and its trace is exactly the three states-only
resampling calls. -/
theorem apply_model_delegates_witness :
    (apply_model (fun _ _ _ => mk 0) (stepConst (mk 1)) (mk 0) [] cMd 3 false).results =
      extract_results
        (apply_model (fun _ _ _ => mk 0) (stepConst (mk 1)) (mk 0) [] cMd 3 false).finalModel
        cMd ∧
    (apply_model (fun _ _ _ => mk 0) (stepConst (mk 1)) (mk 0) [] cMd 3 false).trace =
      [Event.resample { arOnly := false, statesOnly := true } 0,
       Event.resample { arOnly := false, statesOnly := true } 1,
       Event.resample { arOnly := false, statesOnly := true } 2] := by
  refine ⟨(apply_model_delegates (fun _ _ _ => mk 0) (stepConst (mk 1))
    (mk 0) [] cMd 3 false).1, ?_⟩
  rfl

end KpmsFitting
